import Mathlib

/-!
Verification development for the Nexus-AI action-protocol and tree-mutation
engine (`src/App.tsx`).  The data model and operations below are shallow
embeddings of the TypeScript source: `FileNode` mirrors the `FileNode`
interface (`types.ts`), where both `content` and `children` are optional
fields; a JavaScript `undefined` children field is represented by
`NodeChildren.missing` and a present (possibly empty) array by
`NodeChildren.present`.  The platform functions `JSON.parse` and the model
backend `getAiResponse` are external collaborators and enter as explicit
parameters (`jp`, reply strings); the id generator minted at
Create-processing time (`Date.now()` plus a random suffix) is the
parameter `gen` together with a threaded counter.
-/

set_option maxHeartbeats 1000000

/-- JSON values, modelling the payloads produced by `JSON.parse` on model
replies.  Numbers are modelled as integers; no modelled claim exercises
fractional numbers. -/
inductive Json : Type where
  | null : Json
  | bool (b : Bool) : Json
  | num (n : Int) : Json
  | str (s : String) : Json
  | arr (elems : List Json) : Json
  | obj (fields : List (String × Json)) : Json

mutual
/-- Embedding of the `FileNode` interface from `types.ts`:
`{id, name, type, content?, children?}`.  The `ty` field holds the raw
`type` string (`"file"`, `"folder"`, or whatever an untyped payload put
there). -/
inductive FileNode : Type where
  | mk (id name ty : String) (content : Option String) (children : NodeChildren)
deriving DecidableEq

/-- The optional `children` field: JavaScript `undefined` (`missing`) versus
a present, possibly empty, array. -/
inductive NodeChildren : Type where
  | missing : NodeChildren
  | present (l : NodeSeq) : NodeChildren
deriving DecidableEq

/-- A sequence of `FileNode`s (a `FileNode[]` array). -/
inductive NodeSeq : Type where
  | nil : NodeSeq
  | cons (hd : FileNode) (tl : NodeSeq) : NodeSeq
deriving DecidableEq
end

def FileNode.id : FileNode → String
  | .mk i _ _ _ _ => i

def FileNode.name : FileNode → String
  | .mk _ nm _ _ _ => nm

def FileNode.ty : FileNode → String
  | .mk _ _ t _ _ => t

def FileNode.content : FileNode → Option String
  | .mk _ _ _ c _ => c

def FileNode.children : FileNode → NodeChildren
  | .mk _ _ _ _ ch => ch

/-- Convert a Lean list literal into a `NodeSeq`, for writing concrete
trees. -/
def NodeSeq.ofList : List FileNode → NodeSeq
  | [] => .nil
  | n :: rest => .cons n (NodeSeq.ofList rest)

/-- Append two node sequences (`push` on a copied array). -/
def NodeSeq.append : NodeSeq → NodeSeq → NodeSeq
  | .nil, t => t
  | .cons n tl, t => .cons n (NodeSeq.append tl t)

mutual
/-- `findFileById` from `App.tsx` (lines 22-31): depth-first search by `id`;
descends into `children` only when `node.type === 'folder'` and
`node.children` is defined (an empty array is truthy in JavaScript, so
`present .nil` is searched, while `missing` is skipped). -/
def findFileById : NodeSeq → String → Option FileNode
  | .nil, _ => none
  | .cons n tl, tgt =>
    if n.id = tgt then some n
    else
      match findInChildren n tgt with
      | some found => some found
      | none => findFileById tl tgt

/-- The recursive step of `findFileById` for one node's subtree (excluding
the node itself, whose `id` was already compared). -/
def findInChildren : FileNode → String → Option FileNode
  | .mk _ _ ty _ ch, tgt =>
    if ty = "folder" then
      match ch with
      | .present cs => findFileById cs tgt
      | .missing => none
    else none
end

mutual
/-- Mutation core of `updateFileContentPure` (App.tsx 33-40): the source
deep-copies the array (`JSON.parse(JSON.stringify(...))`), runs
`findFileById` on the copy, and sets `content` in place when the first
depth-first match is a `file`.  Here the copy-then-mutate is rendered as a
pure function that rewrites the first match along the same search order;
the Boolean records whether a node with the id was found (file or not),
which stops the search. -/
def updSeq : NodeSeq → String → String → NodeSeq × Bool
  | .nil, _, _ => (.nil, false)
  | .cons n tl, tgt, c =>
    let r := updNode n tgt c
    if r.2 then (.cons r.1 tl, true)
    else
      let rt := updSeq tl tgt c
      (.cons n rt.1, rt.2)

def updNode : FileNode → String → String → FileNode × Bool
  | .mk i nm ty ct ch, tgt, c =>
    if i = tgt then
      (if ty = "file" then (.mk i nm ty (some c) ch, true) else (.mk i nm ty ct ch, true))
    else if ty = "folder" then
      match ch with
      | .present cs =>
        let rc := updSeq cs tgt c
        if rc.2 then (.mk i nm ty ct (.present rc.1), true) else (.mk i nm ty ct ch, false)
      | .missing => (.mk i nm ty ct ch, false)
    else (.mk i nm ty ct ch, false)
end

/-- `updateFileContentPure` from `App.tsx` (lines 33-40). -/
def updateFileContentPure (targetFiles : NodeSeq) (id content : String) : NodeSeq :=
  (updSeq targetFiles id content).1

mutual
/-- Mutation core of `addFileOrFolderPure` for a non-null `parentId`: the
source runs `findFileById` on the copy and pushes the node onto the parent's
children when that first match is a folder (initialising an `undefined`
children array); a first match that is not a folder, or no match, leaves the
copy unchanged.  The Boolean records whether a node with the parent id was
found. -/
def addSeq : NodeSeq → String → FileNode → NodeSeq × Bool
  | .nil, _, _ => (.nil, false)
  | .cons n tl, pid, node =>
    let r := addNode n pid node
    if r.2 then (.cons r.1 tl, true)
    else
      let rt := addSeq tl pid node
      (.cons n rt.1, rt.2)

def addNode : FileNode → String → FileNode → FileNode × Bool
  | .mk i nm ty ct ch, pid, node =>
    if i = pid then
      (if ty = "folder" then
        (match ch with
         | .present cs => (.mk i nm ty ct (.present (cs.append (.cons node .nil))), true)
         | .missing => (.mk i nm ty ct (.present (.cons node .nil)), true))
       else (.mk i nm ty ct ch, true))
    else if ty = "folder" then
      match ch with
      | .present cs =>
        let rc := addSeq cs pid node
        if rc.2 then (.mk i nm ty ct (.present rc.1), true) else (.mk i nm ty ct ch, false)
      | .missing => (.mk i nm ty ct ch, false)
    else (.mk i nm ty ct ch, false)
end

/-- `addFileOrFolderPure` from `App.tsx` (lines 42-56): `parentId = null`
appends at root level; otherwise the node is attached under the first
id-match when it is a folder and silently dropped when it is not. -/
def addFileOrFolderPure (targetFiles : NodeSeq) (parentId : Option String) (node : FileNode) : NodeSeq :=
  match parentId with
  | none => targetFiles.append (.cons node .nil)
  | some pid => (addSeq targetFiles pid node).1

mutual
/-- `deleteFileOrFolderPure` from `App.tsx` (lines 58-71): every node whose
`id` matches is skipped together with its whole subtree; kept folder nodes
with a defined children array are cleaned recursively. -/
def deleteFileOrFolderPure : NodeSeq → String → NodeSeq
  | .nil, _ => .nil
  | .cons n tl, tgt =>
    if n.id = tgt then deleteFileOrFolderPure tl tgt
    else .cons (delNode n tgt) (deleteFileOrFolderPure tl tgt)

def delNode : FileNode → String → FileNode
  | .mk i nm ty ct ch, tgt =>
    if ty = "folder" then
      match ch with
      | .present cs => .mk i nm ty ct (.present (deleteFileOrFolderPure cs tgt))
      | .missing => .mk i nm ty ct ch
    else .mk i nm ty ct ch
end

/-- First node in the sequence whose `name` matches
(`currentNodes.find(node => node.name === part)`). -/
def seqFindByName : NodeSeq → String → Option FileNode
  | .nil, _ => none
  | .cons n tl, p => if n.name = p then some n else seqFindByName tl p

/-- `foundNode.children` as the loop variable `currentNodes` of
`findFileByPath`: `missing` is JavaScript `undefined`. -/
def childrenOpt (n : FileNode) : Option NodeSeq :=
  match n.children with
  | .missing => none
  | .present cs => some cs

/-- `path.replace('./', '')`: removes the first occurrence of the
two-character string `./` anywhere in the path. -/
def replaceFirstDotSlash : List Char → List Char
  | [] => []
  | '.' :: '/' :: rest => rest
  | c :: rest => c :: replaceFirstDotSlash rest

/-- The `for (const part of parts)` loop of `findFileByPath`
(App.tsx 105-121): an empty part, or an `undefined` `currentNodes`, is
skipped with `continue`; a failed name lookup returns `null` immediately;
`currentNodes` advances to the children only when the matched node is a
folder (even when that leaves it `undefined`). -/
def findByPathLoop : List String → Option NodeSeq → Option FileNode → Option FileNode
  | [], _, fnd => fnd
  | p :: rest, cur, fnd =>
    match cur with
    | none => findByPathLoop rest none fnd
    | some seqc =>
      if p = "" then findByPathLoop rest (some seqc) fnd
      else
        match seqFindByName seqc p with
        | none => none
        | some n =>
          if n.ty = "folder" then findByPathLoop rest (childrenOpt n) (some n)
          else findByPathLoop rest (some seqc) (some n)

/-- Model of `path.split('/')` at the character level: split on every slash,
keeping empty segments (`[""]` for the empty string), exactly as the
JavaScript `String.prototype.split` does for a one-character separator. -/
def splitSlashAux : List Char → List Char → List String
  | [], acc => [String.mk acc.reverse]
  | '/' :: rest, acc => String.mk acc.reverse :: splitSlashAux rest []
  | c :: rest, acc => splitSlashAux rest (c :: acc)

/-- `findFileByPath` from `App.tsx` (lines 105-121). -/
def findFileByPath (nodes : NodeSeq) (path : String) : Option FileNode :=
  findByPathLoop (splitSlashAux (replaceFirstDotSlash path.toList) []) (some nodes) none

/-- The observable data of one node (its `id`, `name`, `type` string and
`content`), used to state frame and preservation properties over the
depth-first flattening of a tree. -/
structure NodeMeta where
  id : String
  name : String
  ty : String
  content : Option String
deriving DecidableEq

mutual
/-- Depth-first listing of the observable data of every node, descending
into children under the same guard the source traversals use
(`type === 'folder'` with a defined children array). -/
def flatMetaSeq : NodeSeq → List NodeMeta
  | .nil => []
  | .cons n tl => flatMetaNode n ++ flatMetaSeq tl

def flatMetaNode : FileNode → List NodeMeta
  | .mk i nm ty c ch =>
    { id := i, name := nm, ty := ty, content := c } ::
      (if ty = "folder" then
        (match ch with
         | .present cs => flatMetaSeq cs
         | .missing => [])
       else [])
end

/-- All ids reachable in a tree, in depth-first order. -/
def seqIds (s : NodeSeq) : List String :=
  (flatMetaSeq s).map NodeMeta.id

mutual
/-- Erase every `content` field, keeping ids, names, type strings and the
whole nesting structure: the skeleton of a tree. -/
def eraseSeq : NodeSeq → NodeSeq
  | .nil => .nil
  | .cons n tl => .cons (eraseNode n) (eraseSeq tl)

def eraseNode : FileNode → FileNode
  | .mk i nm ty _ ch => .mk i nm ty none (eraseChildren ch)

def eraseChildren : NodeChildren → NodeChildren
  | .missing => .missing
  | .present l => .present (eraseSeq l)
end

/-- Replace the content recorded for the first entry carrying the given id,
provided that entry is a `file`; leave every other entry untouched.  This
is the intended effect of `update` stated on the flattened view. -/
def updateFirstMeta : List NodeMeta → String → String → List NodeMeta
  | [], _, _ => []
  | e :: rest, tgt, c =>
    if e.id = tgt then
      (if e.ty = "file" then { e with content := some c } :: rest else e :: rest)
    else e :: updateFirstMeta rest tgt c

/-- The number of nodes carrying a given id in the reachable tree. -/
def countIdSeq (s : NodeSeq) (d : String) : Nat :=
  ((flatMetaSeq s).map NodeMeta.id).count d

/-- The number of nodes carrying id `d` inside one node's subtree. -/
def countIdNode (n : FileNode) (d : String) : Nat :=
  ((flatMetaNode n).map NodeMeta.id).count d

mutual
/-- How many nodes with id `d` sit inside subtrees that
`deleteFileOrFolderPure _ tgt` removes. -/
def removedSeq : NodeSeq → String → String → Nat
  | .nil, _, _ => 0
  | .cons n tl, tgt, d =>
    (if n.id = tgt then countIdNode n d else removedNode n tgt d) + removedSeq tl tgt d

/-- Companion of `removedSeq` for the children of a kept node. -/
def removedNode : FileNode → String → String → Nat
  | .mk _i _nm ty _ct ch, tgt, d =>
    if ty = "folder" then
      (match ch with
       | .present cs => removedSeq cs tgt d
       | .missing => 0)
    else 0
end

-- ## JSON field helpers (JavaScript semantics)

/-- Property lookup on a parsed JSON value: `undefined` (`none`) on
non-objects and absent keys. -/
def Json.getField : Json → String → Option Json
  | .obj fields, k => (fields.find? (fun f => f.1 == k)).map (·.2)
  | _, _ => none

/-- A field that is present and holds a string (the `typeof x === 'string'`
shape, and the only shape a strict `===` comparison with a string id can
match). -/
def getStrField (j : Json) (k : String) : Option String :=
  match j.getField k with
  | some (.str s) => some s
  | _ => none

/-- `action.k === v` for a string literal `v`: strict equality only holds
for a string-valued field. -/
def isStrField (j : Json) (k v : String) : Bool :=
  match j.getField k with
  | some (.str s) => s == v
  | _ => false

/-- JavaScript template-literal rendering of a field value
(`${action.fileId}` and friends): `undefined`/`null`/booleans/numbers print
their usual text, strings print themselves.  Array rendering (comma-join)
is not exercised by any modelled claim and is collapsed to `""`. -/
def jsDisplay : Option Json → String
  | none => "undefined"
  | some .null => "null"
  | some (.bool b) => if b then "true" else "false"
  | some (.num n) => toString n
  | some (.str s) => s
  | some (.arr _) => ""
  | some (.obj _) => "[object Object]"

/-- Rendering used by `Array.prototype.join`, which prints `undefined` and
`null` as the empty string (the raw `action.message` pushed by the `chat`
branch is only ever observed through `join('\n')`). -/
def jsJoinDisplay : Option Json → String
  | none => ""
  | some .null => ""
  | some v => jsDisplay (some v)

/-- JavaScript truthiness of a JSON value. -/
def jsTruthy : Json → Bool
  | .null => false
  | .bool b => b
  | .num n => n != 0
  | .str s => s != ""
  | .arr _ => true
  | .obj _ => true

/-- Truthiness of a nullable string state field (`!lastUserPrompt`). -/
def jsTruthyOptStr : Option String → Bool
  | none => false
  | some s => s != ""

/-- Truthiness of a nullable JSON state field (`!lastAiActions`). -/
def jsTruthyOptJson : Option Json → Bool
  | none => false
  | some v => jsTruthy v

/-- `action.content || ''` in the `create` branch: the string content when
present, the empty string otherwise.  (Non-string truthy content payloads
are outside the action schema and collapse to `""` here.) -/
def contentOrEmpty (a : Json) : String :=
  match a.getField "content" with
  | some (.str s) => s
  | _ => ""

-- ## The action interpreter

/-- The state threaded through the `for (const action of ...)` fold:
`tempFiles`, `tempOpenFileIds`, `tempActiveFileId`, `actionSummaries`,
`didModifyFiles`, plus the counter feeding the id generator. -/
structure InterpState where
  files : NodeSeq
  openFileIds : List String
  activeFileId : Option String
  summaries : List String
  didModify : Bool
  fresh : Nat
deriving DecidableEq

/-- `if (!ids.includes(x)) ids.push(x)`. -/
def pushUnique (l : List String) (x : String) : List String :=
  if x ∈ l then l else l ++ [x]

/-- One iteration of the action loop of `handleSendMessage`
(App.tsx 361-400).  `gen` supplies the fresh id minted when a `create` is
processed.  A `parentId` that is neither `null` nor a string is passed to a
`findFileById` lookup that no string id can match, so the tree copy is
returned unchanged (the node is dropped). -/
def applyActionSend (gen : Nat → String) (st : InterpState) (a : Json) : InterpState :=
  let st :=
    if isStrField a "type" "edit" || isStrField a "type" "create" || isStrField a "type" "delete" then
      { st with didModify := true }
    else st
  if isStrField a "type" "edit" then
    let skipLine := "Skipped malformed 'edit' action for file ID " ++ jsDisplay (a.getField "fileId") ++ "."
    match getStrField a "fileId" with
    | some fid =>
      match findFileById st.files fid, getStrField a "content" with
      | some f, some c =>
        { st with
          files := updateFileContentPure st.files fid c,
          summaries := st.summaries ++ ["Updated file: " ++ f.name],
          activeFileId := some fid,
          openFileIds := pushUnique st.openFileIds fid }
      | _, _ => { st with summaries := st.summaries ++ [skipLine] }
    | none => { st with summaries := st.summaries ++ [skipLine] }
  else if isStrField a "type" "create" then
    let newId := gen st.fresh
    let newNode : FileNode :=
      if isStrField a "fileType" "file" then
        .mk newId (jsDisplay (a.getField "name")) "file" (some (contentOrEmpty a)) .missing
      else
        .mk newId (jsDisplay (a.getField "name")) (jsDisplay (a.getField "fileType")) none (.present .nil)
    let files' :=
      match a.getField "parentId" with
      | some .null => addFileOrFolderPure st.files none newNode
      | some (.str pid) => addFileOrFolderPure st.files (some pid) newNode
      | _ => st.files
    let st := { st with
      files := files',
      fresh := st.fresh + 1,
      summaries := st.summaries ++ ["Created " ++ jsDisplay (a.getField "fileType") ++ ": " ++ jsDisplay (a.getField "name")] }
    if newNode.ty = "file" then
      { st with activeFileId := some newId, openFileIds := pushUnique st.openFileIds newId }
    else st
  else if isStrField a "type" "delete" then
    match getStrField a "fileId" with
    | some fid =>
      match findFileById st.files fid with
      | some f =>
        let opens := if fid ∈ st.openFileIds then st.openFileIds.filter (· != fid) else st.openFileIds
        let active := if st.activeFileId = some fid then opens.head? else st.activeFileId
        { st with
          files := deleteFileOrFolderPure st.files fid,
          summaries := st.summaries ++ ["Deleted " ++ f.ty ++ ": " ++ f.name],
          openFileIds := opens,
          activeFileId := active }
      | none => st
    | none => st
  else if isStrField a "type" "chat" then
    { st with summaries := st.summaries ++ [jsJoinDisplay (a.getField "message")] }
  else st

/-- One iteration of the action loop of `handleAutoFix` (App.tsx 245-273):
summaries carry a `"- "` prefix, and the `edit`/`create` branches do not
touch the open-tab or active-file state. -/
def applyActionFix (gen : Nat → String) (st : InterpState) (a : Json) : InterpState :=
  let st :=
    if isStrField a "type" "edit" || isStrField a "type" "create" || isStrField a "type" "delete" then
      { st with didModify := true }
    else st
  if isStrField a "type" "edit" then
    let skipLine := "- Skipped malformed 'edit' action for file ID " ++ jsDisplay (a.getField "fileId") ++ "."
    match getStrField a "fileId" with
    | some fid =>
      match findFileById st.files fid, getStrField a "content" with
      | some f, some c =>
        { st with
          files := updateFileContentPure st.files fid c,
          summaries := st.summaries ++ ["- Updated file: " ++ f.name] }
      | _, _ => { st with summaries := st.summaries ++ [skipLine] }
    | none => { st with summaries := st.summaries ++ [skipLine] }
  else if isStrField a "type" "create" then
    let newId := gen st.fresh
    let newNode : FileNode :=
      if isStrField a "fileType" "file" then
        .mk newId (jsDisplay (a.getField "name")) "file" (some (contentOrEmpty a)) .missing
      else
        .mk newId (jsDisplay (a.getField "name")) (jsDisplay (a.getField "fileType")) none (.present .nil)
    let files' :=
      match a.getField "parentId" with
      | some .null => addFileOrFolderPure st.files none newNode
      | some (.str pid) => addFileOrFolderPure st.files (some pid) newNode
      | _ => st.files
    { st with
      files := files',
      fresh := st.fresh + 1,
      summaries := st.summaries ++ ["- Created " ++ jsDisplay (a.getField "fileType") ++ ": " ++ jsDisplay (a.getField "name")] }
  else if isStrField a "type" "delete" then
    match getStrField a "fileId" with
    | some fid =>
      match findFileById st.files fid with
      | some f =>
        let opens := if fid ∈ st.openFileIds then st.openFileIds.filter (· != fid) else st.openFileIds
        let active := if st.activeFileId = some fid then opens.head? else st.activeFileId
        { st with
          files := deleteFileOrFolderPure st.files fid,
          summaries := st.summaries ++ ["- Deleted " ++ f.ty ++ ": " ++ f.name],
          openFileIds := opens,
          activeFileId := active }
      | none => st
    | none => st
  else if isStrField a "type" "chat" then
    { st with summaries := st.summaries ++ ["- " ++ jsDisplay (a.getField "message")] }
  else st

/-- Fold one batch through the `handleSendMessage` action loop. -/
def applyBatchSend (gen : Nat → String) (st : InterpState) (batch : List Json) : InterpState :=
  batch.foldl (applyActionSend gen) st

-- ## Reply parsing

/-- JavaScript whitespace characters matched by `\s` (the common ones; the
exotic Unicode spaces do not appear in any modelled input). -/
def isJsWhitespace (c : Char) : Bool :=
  c = ' ' || c = '\t' || c = '\n' || c = '\r' || c = '\x0b' || c = '\x0c'

/-- `some (l.drop pat.length)` when `pat` is a prefix of `l`. -/
def dropAfterPat (pat l : List Char) : Option (List Char) :=
  if l.take pat.length = pat then some (l.drop pat.length) else none

/-- The characters strictly before the first occurrence of `pat`, or `none`
when `pat` does not occur. -/
def upToFirstPat (pat : List Char) : List Char → Option (List Char)
  | [] => if pat = [] then some [] else none
  | c :: rest =>
    if (c :: rest).take pat.length = pat then some []
    else (upToFirstPat pat rest).map (c :: ·)

/-- Strip trailing JavaScript whitespace. -/
def rtrimWs (l : List Char) : List Char :=
  (l.reverse.dropWhile isJsWhitespace).reverse

/-- Scan for the earliest fenced-block start that completes: the lazy group
of the fence regex is the text after the opening marker and its greedy
whitespace, up to the first closing fence, with trailing whitespace
stripped. -/
def matchJsonBlockAux (pat fence : List Char) : List Char → Option (List Char)
  | [] => none
  | c :: rest =>
    match dropAfterPat pat (c :: rest) with
    | some suffixChars =>
      let body := suffixChars.dropWhile isJsWhitespace
      (match upToFirstPat fence body with
       | some inner => some (rtrimWs inner)
       | none => matchJsonBlockAux pat fence rest)
    | none => matchJsonBlockAux pat fence rest

/-- Model of the fenced-block regex match in `parseAiResponse`
(App.tsx 162). -/
def matchJsonBlock (s : String) : Option String :=
  (matchJsonBlockAux "```json".toList "```".toList s.toList).map String.mk

/-- Model of the loose regex match in `parseAiResponse` (App.tsx 171): the
greedy brace-to-brace span, from the first opening brace to the last
closing brace, when they occur in that order. -/
def matchLooseJson (s : String) : Option String :=
  let l := s.toList
  match l.findIdx? (· = '\x7b'), l.reverse.findIdx? (· = '\x7d') with
  | some i, some jr =>
    let j := l.length - 1 - jr
    if i ≤ j then some (String.mk ((l.drop i).take (j - i + 1))) else none
  | _, _ => none

/-- The loose-match and bare-parse fallbacks of `parseAiResponse`
(App.tsx 171-186), with their exception messages. -/
def parseLooseOrBare (jp : String → Option Json) (responseText : String) : Except String Json :=
  match matchLooseJson responseText with
  | some loose =>
    (match jp loose with
     | some v => .ok v
     | none => .error ("Could not find a valid JSON object in the response. Raw response: " ++ responseText))
  | none =>
    (match jp responseText with
     | some v => .ok v
     | none => .error ("No valid JSON object found in the AI response. Raw response: " ++ responseText))

/-- `parseAiResponse` from `App.tsx` (lines 161-187), with the platform
`JSON.parse` supplied as the oracle `jp` (`none` models a parse exception).
An empty fenced group is falsy and falls through, as in the source. -/
def parseAiResponse (jp : String → Option Json) (responseText : String) : Except String Json :=
  match matchJsonBlock responseText with
  | some inner =>
    if inner ≠ "" then
      match jp inner with
      | some v => .ok v
      | none => parseLooseOrBare jp responseText
    else parseLooseOrBare jp responseText
  | none => parseLooseOrBare jp responseText

/-- `parsedResponse.actions && Array.isArray(parsedResponse.actions)`: the
batch when the parsed value has an array under `actions` (an empty array is
truthy), `none` otherwise. -/
def jsonActions (j : Json) : Option (List Json) :=
  match j.getField "actions" with
  | some (.arr l) => some l
  | _ => none

-- ## The correction engine

/-- A chat-transcript entry (`ChatMessage` from `types.ts`). -/
structure ChatMsg where
  role : String
  content : String
  model : String
  isError : Bool
  isAutoFix : Bool
deriving DecidableEq

/-- Build a transcript entry. -/
def chatMsg (role content model : String) (isError isAutoFix : Bool) : ChatMsg :=
  { role := role, content := content, model := model, isError := isError, isAutoFix := isAutoFix }

/-- The ambient application state touched by the engine: the tree, tab
state, transcript, the in-flight flag and the correction context triple
(`lastUserPrompt`, `lastAiActions`, `lastFileState`), plus the id-supply
counter. -/
structure AppState where
  files : NodeSeq
  activeFileId : Option String
  openFileIds : List String
  messages : List ChatMsg
  selectedModel : String
  isLoading : Bool
  lastUserPrompt : Option String
  lastAiActions : Option Json
  lastFileState : Option NodeSeq
  fresh : Nat

/-- The reply-processing pipeline of `handleSendMessage` (App.tsx 315-428).
The model backend is external: `responseText` is the text its call
returned; `jp` is the `JSON.parse` oracle. -/
def handleSendMessage (gen : Nat → String) (jp : String → Option Json)
    (st : AppState) (prompt responseText : String) : AppState :=
  let st := { st with
    isLoading := true,
    messages := st.messages ++ [chatMsg "user" prompt st.selectedModel false false],
    lastUserPrompt := none, lastAiActions := none, lastFileState := none }
  let originalFiles := st.files
  match parseAiResponse jp responseText with
  | .error emsg =>
    { st with
      messages := st.messages ++
        [chatMsg "assistant" ("Failed to parse AI response:\n" ++ emsg) st.selectedModel true false],
      isLoading := false }
  | .ok parsed =>
    match jsonActions parsed with
    | some acts =>
      let r := applyBatchSend gen
        { files := st.files, openFileIds := st.openFileIds, activeFileId := st.activeFileId,
          summaries := [], didModify := false, fresh := st.fresh } acts
      let st := { st with files := r.files, openFileIds := r.openFileIds,
                          activeFileId := r.activeFileId, fresh := r.fresh }
      let st :=
        if r.summaries ≠ [] then
          { st with messages := st.messages ++
            [chatMsg "assistant" (String.intercalate "\n" r.summaries) st.selectedModel false false] }
        else if !r.didModify then
          { st with messages := st.messages ++
            [chatMsg "assistant" "I didn't make any changes. What would you like to do next?" st.selectedModel false false] }
        else st
      let st :=
        if r.didModify then
          { st with lastUserPrompt := some prompt, lastAiActions := some (Json.arr acts),
                    lastFileState := some originalFiles }
        else st
      { st with isLoading := false }
    | none =>
      { st with
        messages := st.messages ++
          [chatMsg "assistant" "Error: AI returned an invalid action format." st.selectedModel true false],
        isLoading := false }

/-- The fix cycle of `handleAutoFix` (App.tsx 189-299).  `reply` is the
corrective response text.  `promptDialog` models line 280: the source
passes the out-of-scope global `prompt` (`window.prompt`) to
`setLastUserPrompt`, and React invokes a function argument as a state
updater, so the stored value is the dialog's string-or-null result.  The
batch is folded over the saved pre-failure tree (`lastFileState`), while
the re-armed `lastFileState` saves the tree as it was when the handler was
created (`files` in the closure).  The returned flag records whether the
model backend was invoked. -/
def handleAutoFix (gen : Nat → String) (jp : String → Option Json)
    (st : AppState) (_errorMessage reply : String) (promptDialog : Option String) :
    AppState × Bool :=
  match st.lastFileState, jsTruthyOptStr st.lastUserPrompt && jsTruthyOptJson st.lastAiActions with
  | some preFiles, true =>
    let entryFiles := st.files
    let st := { st with isLoading := true }
    ((match parseAiResponse jp reply with
     | .error emsg =>
       ({ st with
          messages := st.messages ++
            [chatMsg "assistant" ("Auto-fix failed: " ++ emsg) st.selectedModel true false],
          lastUserPrompt := none, lastAiActions := none, lastFileState := none,
          isLoading := false }, true)
     | .ok parsed =>
       let st := { st with lastUserPrompt := none, lastAiActions := none, lastFileState := none }
       match jsonActions parsed with
       | some acts =>
         let r := acts.foldl (applyActionFix gen)
           { files := preFiles, openFileIds := st.openFileIds, activeFileId := st.activeFileId,
             summaries := ["Auto-fix applied:"], didModify := false, fresh := st.fresh }
         let st := { st with files := r.files, openFileIds := r.openFileIds,
                             activeFileId := r.activeFileId, fresh := r.fresh }
         let st :=
           if r.didModify then
             { st with lastUserPrompt := promptDialog, lastAiActions := some parsed,
                       lastFileState := some entryFiles }
           else st
         ({ st with
            messages := st.messages ++
              [chatMsg "assistant" (String.intercalate "\n" r.summaries) st.selectedModel false true],
            isLoading := false }, true)
       | none =>
         ({ st with
            messages := st.messages ++
              [chatMsg "assistant" "Auto-fix failed: AI returned an invalid action format during auto-fix." st.selectedModel true false],
            lastUserPrompt := none, lastAiActions := none, lastFileState := none,
            isLoading := false }, true)) : AppState × Bool)
  | _, _ =>
    ({ st with messages := st.messages ++
        [chatMsg "assistant" "I don't have enough context to attempt a fix. Please try your last request again." st.selectedModel true false] }, false)

/-- `handlePreviewError` (App.tsx 301-313): the signal is dropped when a
request is in flight or no correction context is armed; otherwise the
auto-fix notice is recorded and the fix cycle runs.  The flag records
whether the model backend was invoked. -/
def handlePreviewError (gen : Nat → String) (jp : String → Option Json)
    (st : AppState) (errorMessage reply : String) (promptDialog : Option String) :
    AppState × Bool :=
  if st.isLoading || !jsTruthyOptStr st.lastUserPrompt || !jsTruthyOptJson st.lastAiActions then
    (st, false)
  else
    let st := { st with messages := st.messages ++
      [chatMsg "assistant" ("An error was detected in the preview. I will attempt to fix it.\n\nError: " ++ errorMessage) st.selectedModel false true] }
    handleAutoFix gen jp st errorMessage reply promptDialog

/-- Modelled from the spec: the intended semantics of `findByPath`
(§4.1) — "resolves a `/`-delimited sequence of names by descending into
folders; fails (returns not-found) as soon as any path segment is absent".
A non-final segment must resolve to a folder, and the descent continues in
its children (an undefined children array has nothing under it). -/
def properResolve : NodeSeq → List String → Option FileNode
  | _, [] => none
  | s, [p] => seqFindByName s p
  | s, p :: rest =>
    match seqFindByName s p with
    | some n =>
      if n.ty = "folder" then
        properResolve (match n.children with | .present cs => cs | .missing => .nil) rest
      else none
    | none => none

-- ## Concrete fixtures used by the claim instances

/-- A deterministic id supply standing in for the `Date.now()`-plus-random
generator. -/
def gen0 : Nat → String := fun k => "new-" ++ toString k

/-- An empty interpreter state. -/
def ist0 : InterpState :=
  { files := .nil, openFileIds := [], activeFileId := none, summaries := [], didModify := false,
    fresh := 0 }

/-- A fresh application state: empty project, no transcript, nothing armed. -/
def st0 : AppState :=
  { files := .nil, activeFileId := none, openFileIds := [], messages := [],
    selectedModel := "gemini", isLoading := false, lastUserPrompt := none,
    lastAiActions := none, lastFileState := none, fresh := 0 }

/-- The reply text `\x7b"foo":1\x7d`: valid JSON with no `actions` array. -/
def rawNoActions : String := "\x7b\x22foo\x22:1\x7d"

/-- A `JSON.parse` oracle defined on exactly the input `rawNoActions`. -/
def jpNoActions : String → Option Json :=
  fun s => if s = rawNoActions then some (Json.obj [("foo", Json.num 1)]) else none

/-- A model reply carrying one root-level `create` action. -/
def replyCreate : String :=
  "\x7b\x22actions\x22:[\x7b\x22type\x22:\x22create\x22,\x22name\x22:\x22a.js\x22,\x22fileType\x22:\x22file\x22,\x22parentId\x22:null\x7d]\x7d"

/-- The parsed value of `replyCreate`. -/
def jsonCreate : Json :=
  Json.obj [("actions", Json.arr [Json.obj [("type", Json.str "create"), ("name", Json.str "a.js"),
    ("fileType", Json.str "file"), ("parentId", Json.null)]])]

/-- A `JSON.parse` oracle defined on exactly the input `replyCreate`. -/
def jpCreate : String → Option Json :=
  fun s => if s = replyCreate then some jsonCreate else none

-- ## Supporting lemmas

mutual
/-- Structural induction over a node sequence together with its nodes. -/
theorem nodeSeqInd (Pseq : NodeSeq → Prop) (Pnode : FileNode → Prop)
    (hnil : Pseq .nil)
    (hcons : ∀ n tl, Pnode n → Pseq tl → Pseq (.cons n tl))
    (hmiss : ∀ i nm ty ct, Pnode (.mk i nm ty ct .missing))
    (hpres : ∀ i nm ty ct cs, Pseq cs → Pnode (.mk i nm ty ct (.present cs))) :
    ∀ s, Pseq s
  | .nil => hnil
  | .cons n tl =>
    hcons n tl (fileNodeInd Pseq Pnode hnil hcons hmiss hpres n)
      (nodeSeqInd Pseq Pnode hnil hcons hmiss hpres tl)

/-- Companion of `nodeSeqInd` for a single node. -/
theorem fileNodeInd (Pseq : NodeSeq → Prop) (Pnode : FileNode → Prop)
    (hnil : Pseq .nil)
    (hcons : ∀ n tl, Pnode n → Pseq tl → Pseq (.cons n tl))
    (hmiss : ∀ i nm ty ct, Pnode (.mk i nm ty ct .missing))
    (hpres : ∀ i nm ty ct cs, Pseq cs → Pnode (.mk i nm ty ct (.present cs))) :
    ∀ n, Pnode n
  | .mk i nm ty ct .missing => hmiss i nm ty ct
  | .mk i nm ty ct (.present cs) =>
    hpres i nm ty ct cs (nodeSeqInd Pseq Pnode hnil hcons hmiss hpres cs)
end

/-- Simultaneous structural induction over sequences and nodes. -/
theorem nodeMutualInd (Pseq : NodeSeq → Prop) (Pnode : FileNode → Prop)
    (hnil : Pseq .nil)
    (hcons : ∀ n tl, Pnode n → Pseq tl → Pseq (.cons n tl))
    (hmiss : ∀ i nm ty ct, Pnode (.mk i nm ty ct .missing))
    (hpres : ∀ i nm ty ct cs, Pseq cs → Pnode (.mk i nm ty ct (.present cs))) :
    (∀ s, Pseq s) ∧ (∀ n, Pnode n) :=
  ⟨nodeSeqInd Pseq Pnode hnil hcons hmiss hpres,
   fileNodeInd Pseq Pnode hnil hcons hmiss hpres⟩

theorem updateFirstMeta_of_not_mem (tgt c : String) :
    ∀ l : List NodeMeta, tgt ∉ l.map NodeMeta.id → updateFirstMeta l tgt c = l := by
  intro l
  induction l with
  | nil => intro _; rfl
  | cons e rest ih =>
    intro h
    simp only [List.map_cons, List.mem_cons, not_or] at h
    have he : ¬ e.id = tgt := fun hh => h.1 hh.symm
    simp only [updateFirstMeta, if_neg he, ih h.2]

theorem updateFirstMeta_append_found (tgt c : String) (l₂ : List NodeMeta) :
    ∀ l₁ : List NodeMeta, tgt ∈ l₁.map NodeMeta.id →
      updateFirstMeta (l₁ ++ l₂) tgt c = updateFirstMeta l₁ tgt c ++ l₂ := by
  intro l₁
  induction l₁ with
  | nil => simp
  | cons e rest ih =>
    intro hm
    by_cases h : e.id = tgt
    · simp only [List.cons_append, updateFirstMeta, if_pos h]
      by_cases hf : e.ty = "file" <;> simp [hf]
    · have hr : tgt ∈ rest.map NodeMeta.id := by
        rcases (by simpa using hm : tgt = e.id ∨ tgt ∈ rest.map NodeMeta.id) with h' | h'
        · exact absurd h'.symm h
        · exact h'
      simp only [List.cons_append, updateFirstMeta, if_neg h, List.append_eq, ih hr]

theorem updateFirstMeta_append_notfound (tgt c : String) (l₂ : List NodeMeta) :
    ∀ l₁ : List NodeMeta, tgt ∉ l₁.map NodeMeta.id →
      updateFirstMeta (l₁ ++ l₂) tgt c = l₁ ++ updateFirstMeta l₂ tgt c := by
  intro l₁
  induction l₁ with
  | nil => simp
  | cons e rest ih =>
    intro hm
    simp only [List.map_cons, List.mem_cons, not_or] at hm
    have he : ¬ e.id = tgt := fun hh => hm.1 hh.symm
    simp only [List.cons_append, updateFirstMeta, if_neg he, List.append_eq, ih hm.2]

theorem find_mem_pair (tgt : String) :
    (∀ s : NodeSeq, ((findFileById s tgt).isSome = true ↔ tgt ∈ (flatMetaSeq s).map NodeMeta.id)) ∧
    (∀ n : FileNode, ((n.id = tgt ∨ (findInChildren n tgt).isSome = true) ↔
        tgt ∈ (flatMetaNode n).map NodeMeta.id)) := by
  refine nodeMutualInd _ _ ?_ ?_ ?_ ?_
  · simp [findFileById, flatMetaSeq]
  · intro n tl hn ht
    by_cases h : n.id = tgt
    · simp only [findFileById, if_pos h, Option.isSome_some, flatMetaSeq, List.map_append,
        List.mem_append, true_iff]
      exact Or.inl (hn.mp (Or.inl h))
    · cases hfc : findInChildren n tgt with
      | some m =>
        simp only [findFileById, if_neg h, hfc, Option.isSome_some, flatMetaSeq, List.map_append,
          List.mem_append, true_iff]
        exact Or.inl (hn.mp (Or.inr (by simp [hfc])))
      | none =>
        have hnode : tgt ∉ (flatMetaNode n).map NodeMeta.id := by
          intro hmm
          rcases hn.mpr hmm with h' | h'
          · exact h h'
          · simp [hfc] at h'
        simp only [findFileById, if_neg h, hfc, flatMetaSeq, List.map_append, List.mem_append]
        rw [ht]
        exact ⟨Or.inr, fun hc => hc.resolve_left hnode⟩
  · intro i nm ty ct
    by_cases hf : ty = "folder" <;>
      simp [findInChildren, flatMetaNode, hf, FileNode.id, eq_comm (a := tgt) (b := i)]
  · intro i nm ty ct cs hcs
    by_cases hf : ty = "folder"
    · simp [findInChildren, flatMetaNode, hf, FileNode.id, hcs, eq_comm (a := tgt) (b := i)]
    · simp [findInChildren, flatMetaNode, hf, FileNode.id, eq_comm (a := tgt) (b := i)]

theorem findFileById_eq_none_iff (s : NodeSeq) (tgt : String) :
    findFileById s tgt = none ↔ tgt ∉ (flatMetaSeq s).map NodeMeta.id := by
  rw [← (find_mem_pair tgt).1 s]
  cases findFileById s tgt <;> simp

theorem upd_pair (tgt c : String) :
    (∀ s : NodeSeq,
      ((updSeq s tgt c).2 = true ↔ tgt ∈ (flatMetaSeq s).map NodeMeta.id)
      ∧ ((updSeq s tgt c).2 = false → (updSeq s tgt c).1 = s)
      ∧ flatMetaSeq (updSeq s tgt c).1 = updateFirstMeta (flatMetaSeq s) tgt c
      ∧ eraseSeq (updSeq s tgt c).1 = eraseSeq s) ∧
    (∀ n : FileNode,
      ((updNode n tgt c).2 = true ↔ tgt ∈ (flatMetaNode n).map NodeMeta.id)
      ∧ ((updNode n tgt c).2 = false → (updNode n tgt c).1 = n)
      ∧ flatMetaNode (updNode n tgt c).1 = updateFirstMeta (flatMetaNode n) tgt c
      ∧ eraseNode (updNode n tgt c).1 = eraseNode n) := by
  refine nodeMutualInd _ _ ?_ ?_ ?_ ?_
  · simp [updSeq, flatMetaSeq, updateFirstMeta, eraseSeq]
  · intro n tl hn ht
    obtain ⟨hn1, hn2, hn3, hn4⟩ := hn
    obtain ⟨ht1, ht2, ht3, ht4⟩ := ht
    cases hrn : (updNode n tgt c).2 with
    | true =>
      have hmem : tgt ∈ (flatMetaNode n).map NodeMeta.id := hn1.mp hrn
      refine ⟨?_, ?_, ?_, ?_⟩
      · simp only [updSeq, hrn, if_true, flatMetaSeq, List.map_append, List.mem_append, true_iff]
        exact Or.inl hmem
      · intro hcontra; simp [updSeq, hrn] at hcontra
      · simp only [updSeq, hrn, if_true, flatMetaSeq,
          updateFirstMeta_append_found tgt c _ _ hmem, hn3]
      · simp only [updSeq, hrn, if_true, eraseSeq, hn4]
    | false =>
      have hmem : tgt ∉ (flatMetaNode n).map NodeMeta.id := by
        intro hmm; rw [hn1.mpr hmm] at hrn; cases hrn
      have heq : (updNode n tgt c).1 = n := hn2 hrn
      refine ⟨?_, ?_, ?_, ?_⟩
      · simp only [updSeq, hrn, if_false, Bool.false_eq_true, flatMetaSeq, List.map_append,
          List.mem_append]
        rw [ht1]
        exact ⟨Or.inr, fun hc => hc.resolve_left hmem⟩
      · intro hflag
        simp only [updSeq, hrn, if_false, Bool.false_eq_true] at hflag ⊢
        rw [ht2 hflag]
      · simp only [updSeq, hrn, if_false, Bool.false_eq_true, flatMetaSeq,
          updateFirstMeta_append_notfound tgt c _ _ hmem, ht3]
      · simp only [updSeq, hrn, if_false, Bool.false_eq_true, eraseSeq, ht4]
  · intro i nm ty ct
    by_cases h : i = tgt
    · by_cases hf : ty = "file" <;>
        simp [updNode, h, hf, flatMetaNode, updateFirstMeta, eraseNode, eraseChildren,
          FileNode.id]
    · by_cases hfo : ty = "folder" <;>
        simp [updNode, h, hfo, flatMetaNode, updateFirstMeta, eraseNode, eraseChildren,
          FileNode.id, eq_comm (a := tgt) (b := i)]
  · intro i nm ty ct cs hcs
    obtain ⟨hc1, hc2, hc3, hc4⟩ := hcs
    by_cases h : i = tgt
    · by_cases hf : ty = "file"
      · simp [updNode, h, hf, flatMetaNode, updateFirstMeta, eraseNode, eraseChildren,
          FileNode.id]
      · simp [updNode, h, hf, flatMetaNode, updateFirstMeta, eraseNode, eraseChildren,
          FileNode.id]
    · by_cases hfo : ty = "folder"
      · cases hrc : (updSeq cs tgt c).2 with
        | true =>
          have hmem : tgt ∈ (flatMetaSeq cs).map NodeMeta.id := hc1.mp hrc
          refine ⟨?_, ?_, ?_, ?_⟩
          · simp only [updNode, if_neg h, if_pos hfo, hrc, if_true, flatMetaNode, if_pos hfo,
              List.map_cons, List.mem_cons, true_iff]
            exact Or.inr hmem
          · intro hcontra; simp [updNode, h, hfo, hrc] at hcontra
          · simp only [updNode, if_neg h, if_pos hfo, hrc, if_true, flatMetaNode, if_pos hfo,
              updateFirstMeta, if_neg (fun hh : i = tgt => h hh), hc3]
          · simp only [updNode, if_neg h, if_pos hfo, hrc, if_true, eraseNode, eraseChildren,
              hc4]
        | false =>
          have hmem : tgt ∉ (flatMetaSeq cs).map NodeMeta.id := by
            intro hmm; rw [hc1.mpr hmm] at hrc; cases hrc
          refine ⟨?_, ?_, ?_, ?_⟩
          · simp only [updNode, if_neg h, if_pos hfo, hrc, Bool.false_eq_true, if_false,
              flatMetaNode, if_pos hfo, List.map_cons, List.mem_cons, false_iff, not_or]
            exact ⟨fun hh => h hh.symm, hmem⟩
          · intro _; simp [updNode, h, hfo, hrc]
          · simp only [updNode, if_neg h, if_pos hfo, hrc, Bool.false_eq_true, if_false,
              flatMetaNode, if_pos hfo, updateFirstMeta, if_neg (fun hh : i = tgt => h hh),
              updateFirstMeta_of_not_mem tgt c _ hmem]
          · simp [updNode, h, hfo, hrc]
      · simp [updNode, h, hfo, flatMetaNode, updateFirstMeta, eraseNode, eraseChildren,
          FileNode.id, eq_comm (a := tgt) (b := i)]

theorem upd_noop_pair (tgt c : String) :
    (∀ s : NodeSeq, ∀ m, findFileById s tgt = some m → m.ty ≠ "file" → (updSeq s tgt c).1 = s) ∧
    (∀ n : FileNode,
      (n.id = tgt → n.ty ≠ "file" → (updNode n tgt c).1 = n)
      ∧ (∀ m, findInChildren n tgt = some m → m.ty ≠ "file" → (updNode n tgt c).1 = n)) := by
  refine nodeMutualInd _ _ ?_ ?_ ?_ ?_
  · intro m hfind; cases hfind
  · intro n tl hn ht
    intro m hfind hty
    by_cases h : n.id = tgt
    · simp only [findFileById, if_pos h, Option.some.injEq] at hfind
      have hres : (updNode n tgt c).1 = n := hn.1 h (hfind ▸ hty)
      have hflag : (updNode n tgt c).2 = true :=
        ((upd_pair tgt c).2 n).1.mpr (((find_mem_pair tgt).2 n).mp (Or.inl h))
      simp [updSeq, hflag, hres]
    · cases hfc : findInChildren n tgt with
      | some m' =>
        simp only [findFileById, if_neg h, hfc] at hfind
        have hm : m' = m := by injection hfind
        have hres : (updNode n tgt c).1 = n := hn.2 m' hfc (hm ▸ hty)
        have hflag : (updNode n tgt c).2 = true :=
          ((upd_pair tgt c).2 n).1.mpr (((find_mem_pair tgt).2 n).mp (Or.inr (by simp [hfc])))
        simp [updSeq, hflag, hres]
      | none =>
        simp only [findFileById, if_neg h, hfc] at hfind
        have hmem : tgt ∉ (flatMetaNode n).map NodeMeta.id := by
          intro hmm
          rcases ((find_mem_pair tgt).2 n).mpr hmm with h' | h'
          · exact h h'
          · simp [hfc] at h'
        have hflag : (updNode n tgt c).2 = false := by
          cases hflag : (updNode n tgt c).2 with
          | true => exact absurd (((upd_pair tgt c).2 n).1.mp hflag) hmem
          | false => rfl
        simp [updSeq, hflag, ((upd_pair tgt c).2 n).2.1 hflag, ht m hfind hty]
  · intro i nm ty ct
    refine ⟨?_, ?_⟩
    · intro h hty
      simp only [FileNode.id] at h
      simp only [FileNode.ty] at hty
      simp [updNode, h, hty]
    · intro m hfc
      by_cases hfo : ty = "folder" <;> simp [findInChildren, hfo] at hfc
  · intro i nm ty ct cs hcs
    refine ⟨?_, ?_⟩
    · intro h hty
      simp only [FileNode.id] at h
      simp only [FileNode.ty] at hty
      simp [updNode, h, hty]
    · intro m hfc hty
      by_cases hfo : ty = "folder"
      · simp only [findInChildren, if_pos hfo] at hfc
        by_cases h : i = tgt
        · have htyne : ty ≠ "file" := by rw [hfo]; decide
          simp [updNode, h, htyne]
        · have hres : (updSeq cs tgt c).1 = cs := hcs m hfc hty
          cases hflag : (updSeq cs tgt c).2 <;> simp [updNode, h, hfo, hflag, hres]
      · simp [findInChildren, hfo] at hfc

theorem add_pair (pid : String) (node : FileNode) :
    (∀ s : NodeSeq,
      ((addSeq s pid node).2 = true ↔ pid ∈ (flatMetaSeq s).map NodeMeta.id)
      ∧ ((addSeq s pid node).2 = false → (addSeq s pid node).1 = s)) ∧
    (∀ n : FileNode,
      ((addNode n pid node).2 = true ↔ pid ∈ (flatMetaNode n).map NodeMeta.id)
      ∧ ((addNode n pid node).2 = false → (addNode n pid node).1 = n)) := by
  refine nodeMutualInd _ _ ?_ ?_ ?_ ?_
  · simp [addSeq, flatMetaSeq]
  · intro n tl hn ht
    cases hrn : (addNode n pid node).2 with
    | true =>
      have hmem : pid ∈ (flatMetaNode n).map NodeMeta.id := hn.1.mp hrn
      refine ⟨?_, ?_⟩
      · simp only [addSeq, hrn, if_true, flatMetaSeq, List.map_append, List.mem_append, true_iff]
        exact Or.inl hmem
      · intro hcontra; simp [addSeq, hrn] at hcontra
    | false =>
      have hmem : pid ∉ (flatMetaNode n).map NodeMeta.id := by
        intro hmm; rw [hn.1.mpr hmm] at hrn; cases hrn
      refine ⟨?_, ?_⟩
      · simp only [addSeq, hrn, Bool.false_eq_true, if_false, flatMetaSeq, List.map_append,
          List.mem_append]
        rw [ht.1]
        exact ⟨Or.inr, fun hc => hc.resolve_left hmem⟩
      · intro hflag
        simp only [addSeq, hrn, Bool.false_eq_true, if_false] at hflag ⊢
        rw [ht.2 hflag]
  · intro i nm ty ct
    by_cases h : i = pid
    · by_cases hfo : ty = "folder" <;>
        simp [addNode, h, hfo, flatMetaNode, FileNode.id]
    · by_cases hfo : ty = "folder" <;>
        simp [addNode, h, hfo, flatMetaNode, FileNode.id, eq_comm (a := pid) (b := i)]
  · intro i nm ty ct cs hcs
    by_cases h : i = pid
    · by_cases hfo : ty = "folder" <;>
        simp [addNode, h, hfo, flatMetaNode, FileNode.id]
    · by_cases hfo : ty = "folder"
      · cases hrc : (addSeq cs pid node).2 with
        | true =>
          have hmem : pid ∈ (flatMetaSeq cs).map NodeMeta.id := hcs.1.mp hrc
          refine ⟨?_, ?_⟩
          · simp only [addNode, if_neg h, if_pos hfo, hrc, if_true, flatMetaNode, if_pos hfo,
              List.map_cons, List.mem_cons, true_iff]
            exact Or.inr hmem
          · intro hcontra; simp [addNode, h, hfo, hrc] at hcontra
        | false =>
          have hmem : pid ∉ (flatMetaSeq cs).map NodeMeta.id := by
            intro hmm; rw [hcs.1.mpr hmm] at hrc; cases hrc
          refine ⟨?_, ?_⟩
          · simp only [addNode, if_neg h, if_pos hfo, hrc, Bool.false_eq_true, if_false,
              flatMetaNode, if_pos hfo, List.map_cons, List.mem_cons, false_iff, not_or]
            exact ⟨fun hh => h hh.symm, hmem⟩
          · intro _; simp [addNode, h, hfo, hrc]
      · simp [addNode, h, hfo, flatMetaNode, FileNode.id, eq_comm (a := pid) (b := i)]

theorem add_noop_pair (pid : String) (node : FileNode) :
    (∀ s : NodeSeq, ∀ m, findFileById s pid = some m → m.ty ≠ "folder" → (addSeq s pid node).1 = s) ∧
    (∀ n : FileNode,
      (n.id = pid → n.ty ≠ "folder" → (addNode n pid node).1 = n)
      ∧ (n.id ≠ pid → ∀ m, findInChildren n pid = some m → m.ty ≠ "folder" →
          (addNode n pid node).1 = n)) := by
  refine nodeMutualInd _ _ ?_ ?_ ?_ ?_
  · intro m hfind; cases hfind
  · intro n tl hn ht
    intro m hfind hty
    by_cases h : n.id = pid
    · simp only [findFileById, if_pos h, Option.some.injEq] at hfind
      have hres : (addNode n pid node).1 = n := hn.1 h (hfind ▸ hty)
      have hflag : (addNode n pid node).2 = true :=
        ((add_pair pid node).2 n).1.mpr (((find_mem_pair pid).2 n).mp (Or.inl h))
      simp [addSeq, hflag, hres]
    · cases hfc : findInChildren n pid with
      | some m' =>
        simp only [findFileById, if_neg h, hfc] at hfind
        have hm : m' = m := by injection hfind
        have hres : (addNode n pid node).1 = n := hn.2 h m' hfc (hm ▸ hty)
        have hflag : (addNode n pid node).2 = true :=
          ((add_pair pid node).2 n).1.mpr (((find_mem_pair pid).2 n).mp (Or.inr (by simp [hfc])))
        simp [addSeq, hflag, hres]
      | none =>
        simp only [findFileById, if_neg h, hfc] at hfind
        have hmem : pid ∉ (flatMetaNode n).map NodeMeta.id := by
          intro hmm
          rcases ((find_mem_pair pid).2 n).mpr hmm with h' | h'
          · exact h h'
          · simp [hfc] at h'
        have hflag : (addNode n pid node).2 = false := by
          cases hflag : (addNode n pid node).2 with
          | true => exact absurd (((add_pair pid node).2 n).1.mp hflag) hmem
          | false => rfl
        simp [addSeq, hflag, ((add_pair pid node).2 n).2 hflag, ht m hfind hty]
  · intro i nm ty ct
    refine ⟨?_, ?_⟩
    · intro h hty
      simp only [FileNode.id] at h
      simp only [FileNode.ty] at hty
      simp [addNode, h, hty]
    · intro _ m hfc
      by_cases hfo : ty = "folder" <;> simp [findInChildren, hfo] at hfc
  · intro i nm ty ct cs hcs
    refine ⟨?_, ?_⟩
    · intro h hty
      simp only [FileNode.id] at h
      simp only [FileNode.ty] at hty
      simp [addNode, h, hty]
    · intro hne m hfc hty
      simp only [FileNode.id] at hne
      by_cases hfo : ty = "folder"
      · simp only [findInChildren, if_pos hfo] at hfc
        have hres : (addSeq cs pid node).1 = cs := hcs m hfc hty
        cases hflag : (addSeq cs pid node).2 <;> simp [addNode, hne, hfo, hflag, hres]
      · simp [findInChildren, hfo] at hfc

theorem head_mem_flatMetaNode : ∀ n : FileNode, n.id ∈ (flatMetaNode n).map NodeMeta.id :=
  (nodeMutualInd (fun _ => True) (fun n => n.id ∈ (flatMetaNode n).map NodeMeta.id)
    trivial (fun _ _ _ _ => trivial)
    (fun i nm ty ct => by simp [flatMetaNode, FileNode.id])
    (fun i nm ty ct cs _ => by simp [flatMetaNode, FileNode.id])).2

theorem del_pair (tgt : String) :
    (∀ s : NodeSeq,
      List.Sublist (flatMetaSeq (deleteFileOrFolderPure s tgt)) (flatMetaSeq s)
      ∧ (tgt ∉ (flatMetaSeq (deleteFileOrFolderPure s tgt)).map NodeMeta.id)
      ∧ (tgt ∉ (flatMetaSeq s).map NodeMeta.id → deleteFileOrFolderPure s tgt = s)) ∧
    (∀ n : FileNode,
      List.Sublist (flatMetaNode (delNode n tgt)) (flatMetaNode n)
      ∧ (n.id ≠ tgt → tgt ∉ (flatMetaNode (delNode n tgt)).map NodeMeta.id)
      ∧ (tgt ∉ (flatMetaNode n).map NodeMeta.id → delNode n tgt = n)) := by
  refine nodeMutualInd _ _ ?_ ?_ ?_ ?_
  · simp [deleteFileOrFolderPure, flatMetaSeq]
  · intro n tl hn ht
    obtain ⟨hn1, hn2, hn3⟩ := hn
    obtain ⟨ht1, ht2, ht3⟩ := ht
    by_cases h : n.id = tgt
    · refine ⟨?_, ?_, ?_⟩
      · simp only [deleteFileOrFolderPure, if_pos h, flatMetaSeq]
        exact ht1.trans (List.sublist_append_right _ _)
      · simp only [deleteFileOrFolderPure, if_pos h]
        exact ht2
      · intro hmm
        exfalso
        apply hmm
        simp only [flatMetaSeq, List.map_append, List.mem_append]
        exact Or.inl (h ▸ head_mem_flatMetaNode n)
    · refine ⟨?_, ?_, ?_⟩
      · simp only [deleteFileOrFolderPure, if_neg h, flatMetaSeq]
        exact hn1.append ht1
      · simp only [deleteFileOrFolderPure, if_neg h, flatMetaSeq, List.map_append,
          List.mem_append, not_or]
        exact ⟨hn2 h, ht2⟩
      · intro hmm
        simp only [flatMetaSeq, List.map_append, List.mem_append, not_or] at hmm
        simp only [deleteFileOrFolderPure, if_neg h, hn3 hmm.1, ht3 hmm.2]
  · intro i nm ty ct
    by_cases hfo : ty = "folder" <;>
      simp [delNode, hfo, flatMetaNode, FileNode.id, eq_comm (a := tgt) (b := i)]
  · intro i nm ty ct cs hcs
    obtain ⟨hc1, hc2, hc3⟩ := hcs
    by_cases hfo : ty = "folder"
    · refine ⟨?_, ?_, ?_⟩
      · simp only [delNode, if_pos hfo, flatMetaNode, if_pos hfo]
        exact List.Sublist.cons₂ _ hc1
      · intro hne
        simp only [FileNode.id] at hne
        simp only [delNode, if_pos hfo, flatMetaNode, if_pos hfo, List.map_cons, List.mem_cons,
          not_or]
        exact ⟨fun hh => hne hh.symm, hc2⟩
      · intro hmm
        simp only [flatMetaNode, if_pos hfo, List.map_cons, List.mem_cons, not_or] at hmm
        simp only [delNode, if_pos hfo, hc3 hmm.2]
    · simp [delNode, hfo, flatMetaNode, FileNode.id, eq_comm (a := tgt) (b := i)]

theorem del_count_pair (tgt d : String) :
    (∀ s : NodeSeq,
      countIdSeq (deleteFileOrFolderPure s tgt) d + removedSeq s tgt d = countIdSeq s d) ∧
    (∀ n : FileNode,
      countIdNode (delNode n tgt) d + removedNode n tgt d = countIdNode n d) := by
  refine nodeMutualInd _ _ ?_ ?_ ?_ ?_
  · simp [deleteFileOrFolderPure, removedSeq, countIdSeq, flatMetaSeq]
  · intro n tl hn ht
    by_cases h : n.id = tgt
    · simp only [deleteFileOrFolderPure, if_pos h, removedSeq, if_pos h, countIdSeq, countIdNode,
        flatMetaSeq, List.map_append, List.count_append] at hn ht ⊢
      omega
    · simp only [deleteFileOrFolderPure, if_neg h, removedSeq, if_neg h, countIdSeq, countIdNode,
        flatMetaSeq, List.map_append, List.count_append] at hn ht ⊢
      omega
  · intro i nm ty ct
    by_cases hfo : ty = "folder" <;>
      simp [delNode, removedNode, hfo, countIdNode, flatMetaNode]
  · intro i nm ty ct cs hcs
    by_cases hfo : ty = "folder"
    · simp only [delNode, if_pos hfo, removedNode, if_pos hfo, countIdNode, flatMetaNode,
        if_pos hfo, List.map_cons, List.count_cons, countIdSeq] at hcs ⊢
      omega
    · simp [delNode, removedNode, hfo, countIdNode, flatMetaNode]

theorem del_removed_ge (tgt d : String) :
    (∀ s : NodeSeq, ∀ F, findFileById s tgt = some F → countIdNode F d ≤ removedSeq s tgt d) ∧
    (∀ n : FileNode, ∀ F, findInChildren n tgt = some F → countIdNode F d ≤ removedNode n tgt d) := by
  refine nodeMutualInd _ _ ?_ ?_ ?_ ?_
  · intro F hfind; cases hfind
  · intro n tl hn ht
    intro F hfind
    by_cases h : n.id = tgt
    · simp only [findFileById, if_pos h, Option.some.injEq] at hfind
      simp only [removedSeq, if_pos h]
      subst hfind
      omega
    · cases hfc : findInChildren n tgt with
      | some m =>
        simp only [findFileById, if_neg h, hfc, Option.some.injEq] at hfind
        subst hfind
        have := hn m hfc
        simp only [removedSeq, if_neg h]
        omega
      | none =>
        simp only [findFileById, if_neg h, hfc] at hfind
        have := ht F hfind
        simp only [removedSeq, if_neg h]
        omega
  · intro i nm ty ct
    intro F hfc
    by_cases hfo : ty = "folder" <;> simp [findInChildren, hfo] at hfc
  · intro i nm ty ct cs hcs
    intro F hfc
    by_cases hfo : ty = "folder"
    · simp only [findInChildren, if_pos hfo] at hfc
      simpa [removedNode, hfo] using hcs F hfc
    · simp [findInChildren, hfo] at hfc

theorem findFileById_append (tgt : String) (t : NodeSeq) :
    ∀ s : NodeSeq, findFileById (s.append t) tgt =
      (match findFileById s tgt with
       | some x => some x
       | none => findFileById t tgt) :=
  (nodeMutualInd
    (fun s => findFileById (s.append t) tgt =
      (match findFileById s tgt with
       | some x => some x
       | none => findFileById t tgt))
    (fun _ => True)
    (by simp [NodeSeq.append, findFileById])
    (fun n tl _ ih => by
      by_cases h : n.id = tgt
      · simp [NodeSeq.append, findFileById, h]
      · cases hfc : findInChildren n tgt with
        | some m => simp [NodeSeq.append, findFileById, h, hfc]
        | none => simp [NodeSeq.append, findFileById, h, hfc, ih])
    (fun _ _ _ _ => trivial)
    (fun _ _ _ _ _ _ => trivial)).1

theorem updSeq_append_notin (tgt c : String) (t : NodeSeq) :
    ∀ s : NodeSeq, tgt ∉ (flatMetaSeq s).map NodeMeta.id →
      updSeq (s.append t) tgt c = (s.append (updSeq t tgt c).1, (updSeq t tgt c).2) :=
  (nodeMutualInd
    (fun s => tgt ∉ (flatMetaSeq s).map NodeMeta.id →
      updSeq (s.append t) tgt c = (s.append (updSeq t tgt c).1, (updSeq t tgt c).2))
    (fun _ => True)
    (by
      intro _
      rw [show NodeSeq.nil.append t = t from rfl]
      exact Prod.mk.eta.symm)
    (fun n tl _ ih => by
      intro hmem
      simp only [flatMetaSeq, List.map_append, List.mem_append, not_or] at hmem
      have hflag : (updNode n tgt c).2 = false := by
        cases hflag : (updNode n tgt c).2 with
        | true => exact absurd (((upd_pair tgt c).2 n).1.mp hflag) hmem.1
        | false => rfl
      simp [NodeSeq.append, updSeq, hflag, ih hmem.2])
    (fun _ _ _ _ => trivial)
    (fun _ _ _ _ _ _ => trivial)).1

theorem properResolve_nil_nonempty (p : String) (rest : List String) :
    properResolve .nil (p :: rest) = none := by
  cases rest <;> simp [properResolve, seqFindByName]

theorem properResolve_agree :
    ∀ (segs : List String) (s : NodeSeq) (n : FileNode) (fnd : Option FileNode),
      "" ∉ segs → properResolve s segs = some n → findByPathLoop segs (some s) fnd = some n
  | [], _, _, _ => by intro _ h; cases h
  | [p], s, n, fnd => by
    intro hne h
    simp only [properResolve] at h
    have hp : ¬ p = "" := by intro hh; exact hne (by simp [hh])
    by_cases hfo : n.ty = "folder" <;>
      simp [findByPathLoop, hp, h, hfo]
  | p :: q :: rest, s, n, fnd => by
    intro hne h
    simp only [properResolve] at h
    cases hfind : seqFindByName s p with
    | none => rw [hfind] at h; cases h
    | some m =>
      simp only [hfind] at h
      by_cases hfo : m.ty = "folder"
      · rw [if_pos hfo] at h
        cases hch : m.children with
        | missing =>
          rw [hch] at h
          rw [properResolve_nil_nonempty] at h
          cases h
        | present cs =>
          rw [hch] at h
          have hp : ¬ p = "" := by intro hh; exact hne (by simp [hh])
          have hq : "" ∉ q :: rest := fun hh => hne (List.mem_cons_of_mem _ hh)
          have hrec := properResolve_agree (q :: rest) cs n (some m) hq h
          conv_lhs => rw [findByPathLoop]
          simp [hp, hfind, hfo, childrenOpt, hch, hrec]
      · rw [if_neg hfo] at h
        cases h

theorem parseLooseOrBare_error_raw (jp : String → Option Json) (txt emsg : String) :
    parseLooseOrBare jp txt = .error emsg →
    emsg = "Could not find a valid JSON object in the response. Raw response: " ++ txt
    ∨ emsg = "No valid JSON object found in the AI response. Raw response: " ++ txt := by
  intro h
  unfold parseLooseOrBare at h
  split at h
  · split at h
    · cases h
    · injection h with h'; exact Or.inl h'.symm
  · split at h
    · cases h
    · injection h with h'; exact Or.inr h'.symm

theorem parseAiResponse_error_raw (jp : String → Option Json) (txt emsg : String) :
    parseAiResponse jp txt = .error emsg → ∃ pre, emsg = pre ++ txt := by
  have hloose : parseLooseOrBare jp txt = .error emsg → ∃ pre, emsg = pre ++ txt := by
    intro h
    rcases parseLooseOrBare_error_raw jp txt emsg h with h' | h' <;> exact ⟨_, h'⟩
  intro h
  unfold parseAiResponse at h
  split at h
  · split at h
    · split at h
      · cases h
      · exact hloose h
    · exact hloose h
  · exact hloose h

-- ## Claim theorems

/-- C7: frame and copy-on-write contract of `updateFileContentPure`
(`update`): the tree skeleton (ids, names, kinds, nesting) is unchanged;
on the flattened view the only difference is the content recorded for the
first node carrying the id, and only when that node is a file; and when the
id is absent or does not name a file the result is structurally equal to
the input.  The source achieves isolation of the original tree by a deep
copy, rendered here as a pure function, so the original snapshot is
untouched by construction. -/
theorem claim7_update_frame (t : NodeSeq) (tgt c : String) :
    eraseSeq (updateFileContentPure t tgt c) = eraseSeq t
    ∧ flatMetaSeq (updateFileContentPure t tgt c) = updateFirstMeta (flatMetaSeq t) tgt c
    ∧ ((∀ m, findFileById t tgt = some m → m.ty ≠ "file") → updateFileContentPure t tgt c = t) := by
  simp only [updateFileContentPure]
  refine ⟨((upd_pair tgt c).1 t).2.2.2, ((upd_pair tgt c).1 t).2.2.1, ?_⟩
  intro hm
  cases hf : findFileById t tgt with
  | some m => exact (upd_noop_pair tgt c).1 t m hf (hm m hf)
  | none =>
    have hmem : tgt ∉ (flatMetaSeq t).map NodeMeta.id := (findFileById_eq_none_iff t tgt).mp hf
    have hflag : (updSeq t tgt c).2 = false := by
      cases hflag : (updSeq t tgt c).2 with
      | true => exact absurd (((upd_pair tgt c).1 t).1.mp hflag) hmem
      | false => rfl
    exact ((upd_pair tgt c).1 t).2.1 hflag

/-- Witness for C7 at a concrete input: updating id `1`, which names a
folder, is a structural no-op. -/
theorem claim7_update_frame_witness :
    updateFileContentPure
        (NodeSeq.cons (FileNode.mk "1" "a" "folder" none .missing) .nil) "1" "x"
      = NodeSeq.cons (FileNode.mk "1" "a" "folder" none .missing) .nil :=
  (claim7_update_frame (NodeSeq.cons (FileNode.mk "1" "a" "folder" none .missing) .nil)
      "1" "x").2.2
    (fun m hm => by
      rw [show findFileById (NodeSeq.cons (FileNode.mk "1" "a" "folder" none .missing) .nil) "1"
            = some (FileNode.mk "1" "a" "folder" none .missing) from rfl] at hm
      injection hm with h
      rw [← h]
      decide)

/-- C10: `deleteFileOrFolderPure` removes every node carrying the deleted
id, at every depth, even when several distinct nodes share that id: no
entry of the resulting flattened tree carries the id, and the flattened
result is a sublist of the original flattening, so the surviving nodes keep
their relative order, names, kinds and contents. -/
theorem claim10_delete_all_occurrences (t : NodeSeq) (i : String) :
    i ∉ (flatMetaSeq (deleteFileOrFolderPure t i)).map NodeMeta.id
    ∧ List.Sublist (flatMetaSeq (deleteFileOrFolderPure t i)) (flatMetaSeq t) :=
  ⟨((del_pair i).1 t).2.1, ((del_pair i).1 t).1⟩

/-- C9: when ids are unique, deleting a folder removes its whole subtree —
`findFileById` afterwards fails for the folder's id and for every id
reachable among its children; and deleting an id that is absent from the
tree is a structural no-op. -/
theorem claim9_delete_subtree :
    (∀ (t : NodeSeq) (fid nmf : String) (ct : Option String) (cs : NodeSeq) (d : String),
      ((flatMetaSeq t).map NodeMeta.id).Nodup →
      findFileById t fid = some (.mk fid nmf "folder" ct (.present cs)) →
      (d = fid ∨ d ∈ (flatMetaSeq cs).map NodeMeta.id) →
      findFileById (deleteFileOrFolderPure t fid) d = none)
    ∧ (∀ (t : NodeSeq) (i : String), findFileById t i = none → deleteFileOrFolderPure t i = t) := by
  constructor
  · intro t fid nmf ct cs d hnd hf hd
    have hcnt1 : 1 ≤ countIdNode (FileNode.mk fid nmf "folder" ct (.present cs)) d := by
      have hmem : d ∈ (flatMetaNode (FileNode.mk fid nmf "folder" ct (.present cs))).map
          NodeMeta.id := by
        rcases hd with rfl | hd
        · exact head_mem_flatMetaNode (FileNode.mk d nmf "folder" ct (.present cs))
        · simp only [flatMetaNode, if_pos rfl, List.map_cons, List.mem_cons]
          exact Or.inr hd
      simpa [countIdNode] using List.count_pos_iff.mpr hmem
    have hrem : 1 ≤ removedSeq t fid d :=
      le_trans hcnt1 ((del_removed_ge fid d).1 t _ hf)
    have htot : countIdSeq t d ≤ 1 := List.nodup_iff_count_le_one.mp hnd d
    have hsum := (del_count_pair fid d).1 t
    have hzero : countIdSeq (deleteFileOrFolderPure t fid) d = 0 := by omega
    rw [findFileById_eq_none_iff]
    intro hmem
    have hpos := List.count_pos_iff.mpr hmem
    rw [countIdSeq] at hzero
    omega
  · intro t i h
    exact ((del_pair i).1 t).2.2 ((findFileById_eq_none_iff t i).mp h)

/-- Witness for C9 at a concrete input: deleting folder `f` makes both `f`
and its child `d` unfindable, and deleting an absent id leaves the tree
unchanged. -/
theorem claim9_delete_subtree_witness :
    findFileById
        (deleteFileOrFolderPure
          (NodeSeq.cons (FileNode.mk "f" "F" "folder" none
            (.present (NodeSeq.cons (FileNode.mk "d" "D" "file" (some "") .missing) .nil))) .nil)
          "f") "d" = none
    ∧ deleteFileOrFolderPure
        (NodeSeq.cons (FileNode.mk "f" "F" "folder" none
          (.present (NodeSeq.cons (FileNode.mk "d" "D" "file" (some "") .missing) .nil))) .nil)
        "zzz"
      = NodeSeq.cons (FileNode.mk "f" "F" "folder" none
          (.present (NodeSeq.cons (FileNode.mk "d" "D" "file" (some "") .missing) .nil))) .nil :=
  ⟨claim9_delete_subtree.1 _ "f" "F" none
      (NodeSeq.cons (FileNode.mk "d" "D" "file" (some "") .missing) .nil) "d"
      (by decide) (by decide) (Or.inr (by decide)),
   claim9_delete_subtree.2 _ "zzz" (by decide)⟩

/-- C2 counterexample: a `Create` whose `parentId` does not resolve to any
node does not degrade to root-level insertion — the new node is silently
dropped and the tree is unchanged (here: still empty, while root insertion
would have produced the one-node tree). -/
theorem claim2_counterexample :
    addFileOrFolderPure NodeSeq.nil (some "missing")
        (FileNode.mk "id1" "a.js" "file" (some "") .missing) = NodeSeq.nil
    ∧ NodeSeq.nil ≠
        NodeSeq.append NodeSeq.nil
          (NodeSeq.cons (FileNode.mk "id1" "a.js" "file" (some "") .missing) NodeSeq.nil) := by
  exact ⟨rfl, by decide⟩

/-- C2 amended: `Create` with a null `parentId` appends the node at root
level; `Create` with a non-null `parentId` whose first id-match is not a
folder (or which matches nothing) leaves the tree structurally unchanged —
the node is silently dropped, never promoted to root. -/
theorem claim2_amended (t : NodeSeq) (pid : String) (node : FileNode) :
    addFileOrFolderPure t none node = t.append (.cons node .nil)
    ∧ ((∀ m, findFileById t pid = some m → m.ty ≠ "folder") →
        addFileOrFolderPure t (some pid) node = t) := by
  refine ⟨rfl, ?_⟩
  intro hm
  simp only [addFileOrFolderPure]
  cases hf : findFileById t pid with
  | some m => exact (add_noop_pair pid node).1 t m hf (hm m hf)
  | none =>
    have hmem : pid ∉ (flatMetaSeq t).map NodeMeta.id := (findFileById_eq_none_iff t pid).mp hf
    have hflag : (addSeq t pid node).2 = false := by
      cases hflag : (addSeq t pid node).2 with
      | true => exact absurd (((add_pair pid node).1 t).1.mp hflag) hmem
      | false => rfl
    exact ((add_pair pid node).1 t).2 hflag

/-- Witness for C2 (amended) at a concrete input: creating under a
`parentId` that names a file drops the node, and creating with a null
`parentId` appends at root. -/
theorem claim2_amended_witness :
    addFileOrFolderPure (NodeSeq.cons (FileNode.mk "p" "x" "file" none .missing) .nil)
        (some "p") (FileNode.mk "id1" "a.js" "file" (some "") .missing)
      = NodeSeq.cons (FileNode.mk "p" "x" "file" none .missing) .nil
    ∧ addFileOrFolderPure (NodeSeq.cons (FileNode.mk "p" "x" "file" none .missing) .nil)
        none (FileNode.mk "id1" "a.js" "file" (some "") .missing)
      = (NodeSeq.cons (FileNode.mk "p" "x" "file" none .missing) .nil).append
          (.cons (FileNode.mk "id1" "a.js" "file" (some "") .missing) .nil) :=
  ⟨(claim2_amended (NodeSeq.cons (FileNode.mk "p" "x" "file" none .missing) .nil) "p"
      (FileNode.mk "id1" "a.js" "file" (some "") .missing)).2
    (fun m hm => by
      rw [show findFileById (NodeSeq.cons (FileNode.mk "p" "x" "file" none .missing) .nil) "p"
            = some (FileNode.mk "p" "x" "file" none .missing) from rfl] at hm
      injection hm with h
      rw [← h]
      decide),
   (claim2_amended (NodeSeq.cons (FileNode.mk "p" "x" "file" none .missing) .nil) "p"
      (FileNode.mk "id1" "a.js" "file" (some "") .missing)).1⟩

/-- C6 counterexample: on the tree with two root files `a` and `b`,
`findFileByPath` resolves the path `a/b` to the file `b`, although `b` is
not under `a` (a file has no children) — the intended descent
(`properResolve`, the spec's semantics) fails on the same input.  The
search level simply does not advance when the matched node is not a
folder. -/
theorem claim6_counterexample :
    findFileByPath (NodeSeq.cons (FileNode.mk "1" "a" "file" (some "") .missing)
        (NodeSeq.cons (FileNode.mk "2" "b" "file" (some "") .missing) .nil)) "a/b"
      = some (FileNode.mk "2" "b" "file" (some "") .missing)
    ∧ properResolve (NodeSeq.cons (FileNode.mk "1" "a" "file" (some "") .missing)
        (NodeSeq.cons (FileNode.mk "2" "b" "file" (some "") .missing) .nil)) ["a", "b"]
      = none := by
  exact ⟨by decide, by decide⟩

/-- C6 amended: `findFileByPath` does agree with the intended
segment-by-segment folder descent whenever that descent succeeds — if all
segments are nonempty and resolve by descending into folders to a node,
the function returns that node.  (It returns not-found when a nonempty
segment fails to match a name in its current search list, but the list
does not advance on file matches or on folders without a children array,
so a path with a segment absent under its true parent can still return a
node — see the counterexample.) -/
theorem claim6_amended (t : NodeSeq) (p : String) (segs : List String) (n : FileNode)
    (hsegs : splitSlashAux (replaceFirstDotSlash p.toList) [] = segs)
    (hne : "" ∉ segs) (hres : properResolve t segs = some n) :
    findFileByPath t p = some n := by
  rw [findFileByPath, hsegs]
  exact properResolve_agree segs t n none hne hres

/-- Witness for C6 (amended) at a concrete input: `project/index.html`
resolves through the folder `project` to the file `index.html`. -/
theorem claim6_amended_witness :
    findFileByPath
        (NodeSeq.cons (FileNode.mk "1" "project" "folder" none
          (.present (NodeSeq.cons (FileNode.mk "2" "index.html" "file" (some "") .missing) .nil)))
          .nil)
        "project/index.html"
      = some (FileNode.mk "2" "index.html" "file" (some "") .missing) :=
  claim6_amended _ "project/index.html" ["project", "index.html"]
    (FileNode.mk "2" "index.html" "file" (some "") .missing)
    (by decide) (by decide) (by decide)

/-- C3 counterexample: an action of unknown type `frobnicate` is silently
ignored by the interpreter loop — the whole interpreter state, and in
particular the summary-line list, is unchanged; no skipped line carrying
the type name is recorded. -/
theorem claim3_counterexample :
    applyBatchSend gen0 ist0 [Json.obj [("type", Json.str "frobnicate")]] = ist0
    ∧ (applyBatchSend gen0 ist0 [Json.obj [("type", Json.str "frobnicate")]]).summaries = [] := by
  exact ⟨by decide, by decide⟩

/-- C3 amended: an action whose `type` is not the string `edit`, `create`,
`delete` or `chat` is silently ignored: both interpreter loops (the
`handleSendMessage` one and the `handleAutoFix` one) leave the interpreter
state — tree, tabs, summaries, modification flag and id counter — exactly
unchanged, recording nothing. -/
theorem claim3_amended (gen : Nat → String) (st : InterpState) (a : Json)
    (h1 : isStrField a "type" "edit" = false) (h2 : isStrField a "type" "create" = false)
    (h3 : isStrField a "type" "delete" = false) (h4 : isStrField a "type" "chat" = false) :
    applyActionSend gen st a = st ∧ applyActionFix gen st a = st := by
  constructor <;> simp [applyActionSend, applyActionFix, h1, h2, h3, h4]

/-- Witness for C3 (amended) at a concrete input. -/
theorem claim3_amended_witness :
    applyActionSend gen0 ist0 (Json.obj [("type", Json.str "frobnicate")]) = ist0
    ∧ applyActionFix gen0 ist0 (Json.obj [("type", Json.str "frobnicate")]) = ist0 :=
  claim3_amended gen0 ist0 (Json.obj [("type", Json.str "frobnicate")])
    (by decide) (by decide) (by decide) (by decide)

/-- C4 counterexample: an `Edit` whose `fileId` resolves to a *folder* is
not recorded as skipped — the loop records an `Updated file:` line, marks
the folder id active and opens a tab on it, while the tree stays unchanged.
The claim's "skipped line, open/active state unchanged" behaviour fails on
this input. -/
theorem claim4_counterexample :
    (applyActionSend gen0
      { files := NodeSeq.cons (FileNode.mk "f1" "d" "folder" none (.present .nil)) .nil,
        openFileIds := [], activeFileId := none, summaries := [], didModify := false, fresh := 0 }
      (Json.obj [("type", Json.str "edit"), ("fileId", Json.str "f1"),
                 ("content", Json.str "x")]))
    = { files := NodeSeq.cons (FileNode.mk "f1" "d" "folder" none (.present .nil)) .nil,
        openFileIds := ["f1"], activeFileId := some "f1",
        summaries := ["Updated file: d"], didModify := true, fresh := 0 } := by
  decide

/-- C4 amended, for a well-shaped `Edit{fileId, content}` action: when the
id matches nothing, a skipped line is recorded and tree, open tabs and
active file are unchanged (only `didModifyFiles` is set); when the first
id-match is a file, its content is replaced and it is marked open and
active; but when the first id-match is *not* a file, no skipped line is
recorded — an `Updated file:` line is recorded and the non-file node is
marked open and active while the tree stays unchanged. -/
theorem claim4_amended (gen : Nat → String) (st : InterpState) (fid c : String) :
    (findFileById st.files fid = none →
      applyActionSend gen st
        (Json.obj [("type", Json.str "edit"), ("fileId", Json.str fid), ("content", Json.str c)])
      = { st with didModify := true,
                  summaries := st.summaries ++
                    ["Skipped malformed 'edit' action for file ID " ++ fid ++ "."] })
    ∧ (∀ f, findFileById st.files fid = some f → f.ty = "file" →
      applyActionSend gen st
        (Json.obj [("type", Json.str "edit"), ("fileId", Json.str fid), ("content", Json.str c)])
      = { st with didModify := true,
                  files := updateFileContentPure st.files fid c,
                  summaries := st.summaries ++ ["Updated file: " ++ f.name],
                  activeFileId := some fid,
                  openFileIds := pushUnique st.openFileIds fid })
    ∧ (∀ f, findFileById st.files fid = some f → f.ty ≠ "file" →
      applyActionSend gen st
        (Json.obj [("type", Json.str "edit"), ("fileId", Json.str fid), ("content", Json.str c)])
      = { st with didModify := true,
                  summaries := st.summaries ++ ["Updated file: " ++ f.name],
                  activeFileId := some fid,
                  openFileIds := pushUnique st.openFileIds fid }) := by
  refine ⟨?_, ?_, ?_⟩
  · intro hnone
    simp [applyActionSend, isStrField, Json.getField, getStrField, jsDisplay, List.find?, hnone]
  · intro f hf _
    simp [applyActionSend, isStrField, Json.getField, getStrField, jsDisplay, List.find?, hf,
      updateFileContentPure]
  · intro f hf hty
    have hnoop : (updSeq st.files fid c).1 = st.files := (upd_noop_pair fid c).1 st.files f hf hty
    simp [applyActionSend, isStrField, Json.getField, getStrField, jsDisplay, List.find?, hf,
      updateFileContentPure, hnoop]

/-- Witness for C4 (amended) at concrete inputs: an absent id yields the
skipped line; a file id gets content replaced and opened; a folder id gets
the `Updated file:` line with the tree unchanged. -/
theorem claim4_amended_witness :
    applyActionSend gen0 ist0
        (Json.obj [("type", Json.str "edit"), ("fileId", Json.str "nope"),
                   ("content", Json.str "x")])
      = { ist0 with didModify := true,
                    summaries := ["Skipped malformed 'edit' action for file ID nope."] }
    ∧ applyActionSend gen0
        { files := NodeSeq.cons (FileNode.mk "f2" "m.js" "file" (some "") .missing) .nil,
          openFileIds := [], activeFileId := none, summaries := [], didModify := false,
          fresh := 0 }
        (Json.obj [("type", Json.str "edit"), ("fileId", Json.str "f2"),
                   ("content", Json.str "x")])
      = { files := updateFileContentPure
            (NodeSeq.cons (FileNode.mk "f2" "m.js" "file" (some "") .missing) .nil) "f2" "x",
          openFileIds := pushUnique [] "f2", activeFileId := some "f2",
          summaries := ["Updated file: m.js"], didModify := true, fresh := 0 }
    ∧ applyActionSend gen0
        { files := NodeSeq.cons (FileNode.mk "f1" "d" "folder" none (.present .nil)) .nil,
          openFileIds := [], activeFileId := none, summaries := [], didModify := false,
          fresh := 0 }
        (Json.obj [("type", Json.str "edit"), ("fileId", Json.str "f1"),
                   ("content", Json.str "x")])
      = { files := NodeSeq.cons (FileNode.mk "f1" "d" "folder" none (.present .nil)) .nil,
          openFileIds := pushUnique [] "f1", activeFileId := some "f1",
          summaries := ["Updated file: d"], didModify := true, fresh := 0 } :=
  ⟨(claim4_amended gen0 ist0 "nope" "x").1 (by decide),
   (claim4_amended gen0
      { files := NodeSeq.cons (FileNode.mk "f2" "m.js" "file" (some "") .missing) .nil,
        openFileIds := [], activeFileId := none, summaries := [], didModify := false,
        fresh := 0 } "f2" "x").2.1
      (FileNode.mk "f2" "m.js" "file" (some "") .missing) (by decide) (by decide),
   (claim4_amended gen0
      { files := NodeSeq.cons (FileNode.mk "f1" "d" "folder" none (.present .nil)) .nil,
        openFileIds := [], activeFileId := none, summaries := [], didModify := false,
        fresh := 0 } "f1" "x").2.2
      (FileNode.mk "f1" "d" "folder" none (.present .nil)) (by decide) (by decide)⟩

theorem flatMetaSeq_append (t : NodeSeq) :
    ∀ s : NodeSeq, flatMetaSeq (s.append t) = flatMetaSeq s ++ flatMetaSeq t :=
  (nodeMutualInd
    (fun s => flatMetaSeq (s.append t) = flatMetaSeq s ++ flatMetaSeq t)
    (fun _ => True)
    (by simp [NodeSeq.append, flatMetaSeq])
    (fun n tl _ ih => by simp [NodeSeq.append, flatMetaSeq, ih])
    (fun _ _ _ _ => trivial)
    (fun _ _ _ _ _ _ => trivial)).1

/-- C8: intra-batch id visibility — the batch
`[Create(parent=null, name="a.js", kind=file, content=""), Edit(fileId=<the
id minted by that Create>, content="x")]`, applied to any interpreter state
whose tree does not already contain the minted id, yields exactly the
original tree with one new root file `a.js` whose content is `"x"`; in
particular the flattened result contains that file.  The id generated while
processing the `Create` is visible to the `Edit` folded immediately after
it. -/
theorem claim8_intra_batch (gen : Nat → String) (st : InterpState)
    (hfresh : findFileById st.files (gen st.fresh) = none) :
    (applyBatchSend gen st
      [Json.obj [("type", Json.str "create"), ("parentId", Json.null), ("name", Json.str "a.js"),
                 ("fileType", Json.str "file"), ("content", Json.str "")],
       Json.obj [("type", Json.str "edit"), ("fileId", Json.str (gen st.fresh)),
                 ("content", Json.str "x")]]).files
      = st.files.append
          (.cons (FileNode.mk (gen st.fresh) "a.js" "file" (some "x") .missing) .nil)
    ∧ ({ id := gen st.fresh, name := "a.js", ty := "file", content := some "x" } : NodeMeta)
        ∈ flatMetaSeq (applyBatchSend gen st
          [Json.obj [("type", Json.str "create"), ("parentId", Json.null),
                     ("name", Json.str "a.js"), ("fileType", Json.str "file"),
                     ("content", Json.str "")],
           Json.obj [("type", Json.str "edit"), ("fileId", Json.str (gen st.fresh)),
                     ("content", Json.str "x")]]).files := by
  have hmem : gen st.fresh ∉ (flatMetaSeq st.files).map NodeMeta.id :=
    (findFileById_eq_none_iff _ _).mp hfresh
  have hfiles1 : (applyActionSend gen st
      (Json.obj [("type", Json.str "create"), ("parentId", Json.null),
                 ("name", Json.str "a.js"), ("fileType", Json.str "file"),
                 ("content", Json.str "")])).files
      = st.files.append
          (.cons (FileNode.mk (gen st.fresh) "a.js" "file" (some "") .missing) .nil) := by
    simp [applyActionSend, isStrField, Json.getField, getStrField, jsDisplay, contentOrEmpty,
      List.find?, addFileOrFolderPure, FileNode.ty]
  have hfind1 : findFileById
      (st.files.append (.cons (FileNode.mk (gen st.fresh) "a.js" "file" (some "") .missing) .nil))
      (gen st.fresh)
      = some (FileNode.mk (gen st.fresh) "a.js" "file" (some "") .missing) := by
    rw [findFileById_append, hfresh]
    simp [findFileById, FileNode.id]
  have h2 : ∀ st' : InterpState,
      st'.files = st.files.append
        (.cons (FileNode.mk (gen st.fresh) "a.js" "file" (some "") .missing) .nil) →
      (applyActionSend gen st'
        (Json.obj [("type", Json.str "edit"), ("fileId", Json.str (gen st.fresh)),
                   ("content", Json.str "x")])).files
      = updateFileContentPure st'.files (gen st.fresh) "x" := by
    intro st' hst'
    have hfind : findFileById st'.files (gen st.fresh)
        = some (FileNode.mk (gen st.fresh) "a.js" "file" (some "") .missing) := by
      rw [hst']; exact hfind1
    simp [applyActionSend, isStrField, Json.getField, getStrField, jsDisplay, List.find?, hfind,
      updateFileContentPure]
  have hbatch : (applyBatchSend gen st
      [Json.obj [("type", Json.str "create"), ("parentId", Json.null), ("name", Json.str "a.js"),
                 ("fileType", Json.str "file"), ("content", Json.str "")],
       Json.obj [("type", Json.str "edit"), ("fileId", Json.str (gen st.fresh)),
                 ("content", Json.str "x")]])
      = applyActionSend gen
          (applyActionSend gen st
            (Json.obj [("type", Json.str "create"), ("parentId", Json.null),
                       ("name", Json.str "a.js"), ("fileType", Json.str "file"),
                       ("content", Json.str "")]))
          (Json.obj [("type", Json.str "edit"), ("fileId", Json.str (gen st.fresh)),
                     ("content", Json.str "x")]) := rfl
  have hmain : (applyBatchSend gen st
      [Json.obj [("type", Json.str "create"), ("parentId", Json.null), ("name", Json.str "a.js"),
                 ("fileType", Json.str "file"), ("content", Json.str "")],
       Json.obj [("type", Json.str "edit"), ("fileId", Json.str (gen st.fresh)),
                 ("content", Json.str "x")]]).files
      = st.files.append
          (.cons (FileNode.mk (gen st.fresh) "a.js" "file" (some "x") .missing) .nil) := by
    rw [hbatch, h2 _ hfiles1, hfiles1, updateFileContentPure, updSeq_append_notin _ _ _ _ hmem]
    simp [updSeq, updNode]
  refine ⟨hmain, ?_⟩
  rw [hmain, flatMetaSeq_append]
  simp [flatMetaSeq, flatMetaNode]

/-- Witness for C8 at a concrete input: from the empty tree, the batch
produces exactly one root file `a.js` with content `"x"` under the minted
id. -/
theorem claim8_intra_batch_witness :
    (applyBatchSend gen0 ist0
      [Json.obj [("type", Json.str "create"), ("parentId", Json.null), ("name", Json.str "a.js"),
                 ("fileType", Json.str "file"), ("content", Json.str "")],
       Json.obj [("type", Json.str "edit"), ("fileId", Json.str (gen0 ist0.fresh)),
                 ("content", Json.str "x")]]).files
      = NodeSeq.cons (FileNode.mk "new-0" "a.js" "file" (some "x") .missing) .nil := by
  have h := (claim8_intra_batch gen0 ist0 (by decide)).1
  exact h.trans (by decide)

/-- C5 counterexample: the reply text `\x7b"foo":1\x7d` parses as JSON but
has no `actions` array.  The surfaced assistant message is the fixed string
`Error: AI returned an invalid action format.`, which does not include the
raw reply text; the tree is unchanged and nothing is armed for retry.  The
claim's "error message includes the raw reply text" fails on this input. -/
theorem claim5_counterexample :
    (handleSendMessage gen0 jpNoActions st0 "p" rawNoActions).messages.map ChatMsg.content
      = ["p", "Error: AI returned an invalid action format."]
    ∧ (handleSendMessage gen0 jpNoActions st0 "p" rawNoActions).files = st0.files
    ∧ (handleSendMessage gen0 jpNoActions st0 "p" rawNoActions).lastUserPrompt = none
    ∧ (handleSendMessage gen0 jpNoActions st0 "p" rawNoActions).lastAiActions.isNone = true
    ∧ (handleSendMessage gen0 jpNoActions st0 "p" rawNoActions).lastFileState.isNone = true
    ∧ ∀ pre, "Error: AI returned an invalid action format." ≠ pre ++ rawNoActions := by
  refine ⟨by decide, by decide, by decide, by decide, by decide, ?_⟩
  intro pre hpre
  have hninf : ¬ List.IsInfix rawNoActions.toList
      "Error: AI returned an invalid action format.".toList := by decide
  apply hninf
  rw [hpre]
  have happ : (pre ++ rawNoActions).toList = pre.toList ++ rawNoActions.toList := by
    simp [String.toList]
  rw [happ]
  exact (List.suffix_append pre.toList rawNoActions.toList).isInfix

/-- C5 amended: a reply whose text yields no JSON value at all is surfaced
as a parse error whose message ends with the raw reply text, with no tree
mutation and nothing armed for retry; a reply that parses to JSON without
an `actions` array is surfaced as the fixed invalid-format error — without
the raw reply text — again with no tree mutation and nothing armed for
retry.  In neither case is a further model call issued. -/
theorem claim5_amended (gen : Nat → String) (jp : String → Option Json) (st : AppState)
    (prompt txt : String) :
    (∀ emsg, parseAiResponse jp txt = .error emsg →
      (handleSendMessage gen jp st prompt txt).files = st.files
      ∧ (handleSendMessage gen jp st prompt txt).lastUserPrompt = none
      ∧ (handleSendMessage gen jp st prompt txt).lastAiActions = none
      ∧ (handleSendMessage gen jp st prompt txt).lastFileState = none
      ∧ (handleSendMessage gen jp st prompt txt).messages
          = st.messages ++
            [chatMsg "user" prompt st.selectedModel false false,
             chatMsg "assistant" ("Failed to parse AI response:\n" ++ emsg)
               st.selectedModel true false]
      ∧ ∃ pre, emsg = pre ++ txt)
    ∧ (∀ v, parseAiResponse jp txt = .ok v → jsonActions v = none →
      (handleSendMessage gen jp st prompt txt).files = st.files
      ∧ (handleSendMessage gen jp st prompt txt).lastUserPrompt = none
      ∧ (handleSendMessage gen jp st prompt txt).lastAiActions = none
      ∧ (handleSendMessage gen jp st prompt txt).lastFileState = none
      ∧ (handleSendMessage gen jp st prompt txt).messages
          = st.messages ++
            [chatMsg "user" prompt st.selectedModel false false,
             chatMsg "assistant" "Error: AI returned an invalid action format."
               st.selectedModel true false]) := by
  constructor
  · intro emsg h
    refine ⟨?_, ?_, ?_, ?_, ?_, parseAiResponse_error_raw jp txt emsg h⟩ <;>
      simp [handleSendMessage, h, chatMsg]
  · intro v hok hacts
    refine ⟨?_, ?_, ?_, ?_, ?_⟩ <;>
      simp [handleSendMessage, hok, hacts, chatMsg]

/-- Witness for C5 (amended) at concrete inputs: prose (`hello`) yields the
raw-text-bearing parse error with the tree unchanged, and a JSON object
without `actions` yields the fixed invalid-format message. -/
theorem claim5_amended_witness :
    ((handleSendMessage gen0 jpNoActions st0 "p" "hello").files = st0.files
      ∧ ∃ pre, "No valid JSON object found in the AI response. Raw response: hello"
          = pre ++ "hello")
    ∧ (handleSendMessage gen0 jpNoActions st0 "p" rawNoActions).messages
        = st0.messages ++
          [chatMsg "user" "p" st0.selectedModel false false,
           chatMsg "assistant" "Error: AI returned an invalid action format."
             st0.selectedModel true false] := by
  constructor
  · have h := (claim5_amended gen0 jpNoActions st0 "p" "hello").1
      "No valid JSON object found in the AI response. Raw response: hello" rfl
    exact ⟨h.1, h.2.2.2.2.2⟩
  · have h := (claim5_amended gen0 jpNoActions st0 "p" rawNoActions).2
      (Json.obj [("foo", Json.num 1)]) rfl rfl
    exact h.2.2.2.2

/-- C1: the code does not enforce at-most-one retry.  Scenario evaluated on
the embedding: a user prompt is answered by a modifying batch (arming the
correction context); a first preview error triggers the auto-fix cycle,
whose corrective batch also modifies files — and the exit of that successful
fix attempt does *not* clear the context: lines 279-283 re-arm it, storing
the result of the out-of-scope global `prompt` (a `window.prompt` dialog,
invoked by React as a state updater) as the saved user prompt.  A second
preview error arriving with no new user prompt in between therefore passes
the `handlePreviewError` guard and invokes the model again. -/
theorem claim1_second_error_triggers_model_call :
    (handlePreviewError gen0 jpCreate
        (handleSendMessage gen0 jpCreate st0 "add a button" replyCreate)
        "E1" replyCreate (some "dialog")).2 = true
    ∧ (handlePreviewError gen0 jpCreate
        (handleSendMessage gen0 jpCreate st0 "add a button" replyCreate)
        "E1" replyCreate (some "dialog")).1.lastUserPrompt = some "dialog"
    ∧ (handlePreviewError gen0 jpCreate
        (handlePreviewError gen0 jpCreate
          (handleSendMessage gen0 jpCreate st0 "add a button" replyCreate)
          "E1" replyCreate (some "dialog")).1
        "E2" replyCreate (some "dialog")).2 = true := by
  exact ⟨by decide, by decide, by decide⟩

/-- Witness for C10 at a concrete input with a duplicated id: both nodes
carrying id `x` (one at root, one nested) are gone, and the surviving
flattening is a sublist of the original. -/
theorem claim10_delete_all_occurrences_witness :
    "x" ∉ (flatMetaSeq (deleteFileOrFolderPure
        (NodeSeq.cons (FileNode.mk "x" "a" "file" (some "1") .missing)
          (NodeSeq.cons (FileNode.mk "f" "F" "folder" none
            (.present (NodeSeq.cons (FileNode.mk "x" "b" "file" (some "2") .missing) .nil)))
            .nil))
        "x")).map NodeMeta.id
    ∧ List.Sublist
        (flatMetaSeq (deleteFileOrFolderPure
          (NodeSeq.cons (FileNode.mk "x" "a" "file" (some "1") .missing)
            (NodeSeq.cons (FileNode.mk "f" "F" "folder" none
              (.present (NodeSeq.cons (FileNode.mk "x" "b" "file" (some "2") .missing) .nil)))
              .nil))
          "x"))
        (flatMetaSeq
          (NodeSeq.cons (FileNode.mk "x" "a" "file" (some "1") .missing)
            (NodeSeq.cons (FileNode.mk "f" "F" "folder" none
              (.present (NodeSeq.cons (FileNode.mk "x" "b" "file" (some "2") .missing) .nil)))
              .nil))) :=
  claim10_delete_all_occurrences
    (NodeSeq.cons (FileNode.mk "x" "a" "file" (some "1") .missing)
      (NodeSeq.cons (FileNode.mk "f" "F" "folder" none
        (.present (NodeSeq.cons (FileNode.mk "x" "b" "file" (some "2") .missing) .nil)))
        .nil))
    "x"
